import Mathlib

/-!
Verification of the CNPP (combinatorial number-placement puzzle) model and
solver of this repository, shallowly embedded from
`src/sudoku_solver/cnpp.py` and `src/sudoku_solver/cnpp_solver.py`.

Modelling conventions:
* Symbols are `Int`; Python truthiness of a symbol is `v != 0`, the Python
  value `None` is `Option.none`.
* A Python `set` is a `List` without duplicates; the arbitrary-but-fixed
  iteration order of a Python set is modelled by the order of the list
  (first-insertion order).  Dictionaries preserve insertion order exactly as
  CPython does.
* Cells are mutable objects shared between groups and the puzzle.  The heap
  is modelled by `Puzzle.cells`, addressed by cell location; every mutation
  goes through `modifyCell`.  Python object identity is modelled by the extra
  `oid` field, which no operation of the source ever reads (in particular
  `Cell.__eq__` ignores it, as in the source): it only serves to state which
  cell objects a returned puzzle shares with the input.
* Operations that can raise (`assert`, `next` on an empty iterator) return
  `Except PyErr`.  Loops of the driver run on explicit fuel; the fuel given
  is large enough for every concrete run in this file, which the evaluation
  theorems check (the result is never `PyErr.fuelExhausted`).
-/

namespace Cnpp

/-- Python truthiness of an integer symbol: `bool(v)` is `v ≠ 0`. -/
def truthyInt (v : Int) : Bool := v != 0

/-- Python truthiness of `Cell._value`, where `none` models Python `None`. -/
def truthyOptInt : Option Int → Bool
  | none => false
  | some v => truthyInt v

/-- Add an element to a list-modelled set (`set.add`): no duplicates,
first-insertion iteration order. -/
def insertUniq {α : Type} [DecidableEq α] (xs : List α) (x : α) : List α :=
  if x ∈ xs then xs else xs ++ [x]

/-- Union of list-modelled sets, keeping the order of `xs` then new elements
of `ys` in order. -/
def unionUniq {α : Type} [DecidableEq α] (xs ys : List α) : List α :=
  ys.foldl insertUniq xs

/-- `set(xs)`: deduplicate keeping first occurrences. -/
def dedupList {α : Type} [DecidableEq α] (xs : List α) : List α :=
  xs.foldl insertUniq []

/-- Equality of list-modelled sets (Python `set.__eq__`). -/
def listSetEq {α : Type} [DecidableEq α] (a b : List α) : Bool :=
  a.all (fun x => decide (x ∈ b)) && b.all (fun x => decide (x ∈ a))

/-- Exceptions of the Python source that the embedding can surface, plus
fuel exhaustion of the embedded loops (never reached in this file). -/
inductive PyErr
  | assertionError
  | stopIteration
  | fuelExhausted
deriving DecidableEq, Repr

deriving instance DecidableEq for Except

/-- Embeds `cnpp.Cell`: a location, the committed value `_value`
(`none` = Python `None`) and the pencil-marking set `_potential_values`.
`oid` models Python object identity (see module docstring). -/
structure Cell where
  oid : Nat
  loc : Nat
  val : Option Int
  pv : List Int
deriving DecidableEq, Repr, Inhabited

/-- `Cell.__init__`: requires `bool(value) ^ bool(potential_values)` and
stores `set(potential_values or ())`.  `pvs = none` models passing `None`. -/
def mkCell (oid loc : Nat) (value : Option Int) (pvs : Option (List Int)) :
    Except PyErr Cell :=
  let tv := truthyOptInt value
  let tp := match pvs with
    | none => false
    | some l => !l.isEmpty
  if xor tv tp then
    Except.ok ⟨oid, loc, value, dedupList (pvs.getD [])⟩
  else
    Except.error PyErr.assertionError

/-- `Cell.set_value`: commit a value and clear the pencil markings.  The
source performs no check whatsoever. -/
def setValue (c : Cell) (v : Int) : Cell :=
  { c with val := some v, pv := [] }

/-- `Cell.remove_values`: remove each listed value that is present; the
boolean reports whether anything was removed. -/
def removeValuesCell (c : Cell) (vs : List Int) : Cell × Bool :=
  vs.foldl
    (fun (acc : Cell × Bool) v =>
      if v ∈ acc.1.pv then ({ acc.1 with pv := acc.1.pv.erase v }, true)
      else acc)
    (c, false)

/-- `Cell.value`: return the committed value if truthy; otherwise lazily
commit a singleton candidate set and return it; otherwise `None`.
Returns the (possibly mutated) cell alongside the result. -/
def cellValue (c : Cell) : Option Int × Cell :=
  if truthyOptInt c.val then (c.val, c)
  else
    match c.pv with
    | [v] => (some v, setValue c v)
    | _ => (none, c)

/-- `Cell.__eq__`: same location, same committed value, same candidate set.
Object identity (`oid`) plays no role, exactly as in the source. -/
def cellEq (c d : Cell) : Bool :=
  c.loc == d.loc && c.val == d.val && listSetEq c.pv d.pv

/-- `Cell.__hash__` is `hash(self._location)`; `hsh` stands for the Python
hash function on locations. -/
def cellHash (hsh : Nat → Nat) (c : Cell) : Nat := hsh c.loc

/-- Embeds `cnpp.Puzzle`: the flat cell arena (`_cells`, in iteration
order) and the groups (`_groups`), each a set of cell locations in
iteration order. -/
structure Puzzle where
  cells : List Cell
  groups : List (List Nat)
deriving DecidableEq, Repr, Inhabited

/-- Look up the cell object at a location (`_location_to_cell_map`). -/
def getCell (p : Puzzle) (l : Nat) : Cell :=
  (p.cells.find? (fun c => c.loc == l)).getD default

/-- Mutate the cell object at a location in place. -/
def modifyCell (p : Puzzle) (l : Nat) (f : Cell → Cell) : Puzzle :=
  { p with cells := p.cells.map (fun c => if c.loc == l then f c else c) }

/-- Call `cell.value()` on the cell at `l`, threading the lazy commit. -/
def valueAt (p : Puzzle) (l : Nat) : Option Int × Puzzle :=
  ((cellValue (getCell p l)).1, modifyCell p l (fun c => (cellValue c).2))

/-- Call `cell.remove_values(vs)` on the cell at `l`. -/
def removeValuesAt (p : Puzzle) (l : Nat) (vs : List Int) : Puzzle × Bool :=
  (modifyCell p l (fun c => (removeValuesCell c vs).1),
   (removeValuesCell (getCell p l) vs).2)

/-- Call `cell.remove_value(v)` on the cell at `l`. -/
def removeValueAt (p : Puzzle) (l : Nat) (v : Int) : Puzzle × Bool :=
  removeValuesAt p l [v]

/-- `Group.unsolved_cells()` for a group of locations: the cells whose
`value()` is falsy, in group iteration order, threading lazy commits. -/
def groupUnsolvedLocs (p : Puzzle) (g : List Nat) : List Nat × Puzzle :=
  g.foldl
    (fun (acc : List Nat × Puzzle) l =>
      let r := valueAt acc.2 l
      (if truthyOptInt r.1 then acc.1 else acc.1 ++ [l], r.2))
    ([], p)

/-- The set of values of `Group.solved_cells()` (first phase of the
strategies): cells whose `value()` is truthy, collected as a value set. -/
def groupSolvedValues (p : Puzzle) (g : List Nat) : List Int × Puzzle :=
  g.foldl
    (fun (acc : List Int × Puzzle) l =>
      let r := valueAt acc.2 l
      (match r.1 with
        | some v => if truthyInt v then (insertUniq acc.1 v, r.2) else (acc.1, r.2)
        | none => (acc.1, r.2)))
    ([], p)

/-- `PuzzleState`. -/
inductive PState
  | Solved
  | Unsolved
  | Conflict
deriving DecidableEq, Repr

/-- First loop of `Puzzle.state`: scan all cells for one with neither a
truthy `value()` nor any truthy potential value; short-circuits like the
Python `return`. -/
def stateCells : List Nat → Puzzle → Bool × Puzzle
  | [], p => (false, p)
  | l :: ls, p =>
    let r := valueAt p l
    if truthyOptInt r.1 || (getCell r.2 l).pv.any truthyInt then stateCells ls r.2
    else (true, r.2)

/-- Duplicate-value scan of one group in `Puzzle.state`. -/
def groupDup : List Nat → List (Option Int) → Puzzle → Bool × Puzzle
  | [], _, p => (false, p)
  | l :: ls, seen, p =>
    let r := valueAt p l
    if r.1 ∈ seen then (true, r.2) else groupDup ls (seen ++ [r.1]) r.2

/-- Second loop of `Puzzle.state`: the first group with an unsolved cell
yields `Unsolved`; a fully solved group with a duplicate value yields
`Conflict`; otherwise `Solved`. -/
def stateGroups : List (List Nat) → Puzzle → PState × Puzzle
  | [], p => (PState.Solved, p)
  | g :: gs, p =>
    let u := groupUnsolvedLocs p g
    if u.1.length > 0 then (PState.Unsolved, u.2)
    else
      let d := groupDup g [] u.2
      if d.1 then (PState.Conflict, d.2) else stateGroups gs d.2

/-- `Puzzle.state`, threading every lazy commit the scan performs. -/
def puzzleState (p : Puzzle) : PState × Puzzle :=
  let r := stateCells (p.cells.map (fun c => c.loc)) p
  if r.1 then (PState.Conflict, r.2) else stateGroups p.groups r.2

/-- Strategy S1, `clear_solved_cells`: erase every solved value of the group
from the pencil markings of its unsolved cells. -/
def clearSolvedCells (p : Puzzle) (g : List Nat) : Puzzle × List Nat :=
  let sv := groupSolvedValues p g
  let us := groupUnsolvedLocs sv.2 g
  us.1.foldl
    (fun (acc : Puzzle × List Nat) l =>
      let r := removeValuesAt acc.1 l sv.1
      (r.1, if r.2 then insertUniq acc.2 l else acc.2))
    (us.2, [])

/-- Build `pencil_marking_map` / `potential_value_map`-style association
lists: value to the unsolved cells listing it, keys in first-seen order. -/
def assocAdd (m : List (Int × List Nat)) (v : Int) (l : Nat) :
    List (Int × List Nat) :=
  if m.any (fun e => e.1 == v) then
    m.map (fun e => if e.1 == v then (e.1, insertUniq e.2 l) else e)
  else m ++ [(v, [l])]

/-- Look a value up in an association list, defaulting to the empty set. -/
def assocGet (m : List (Int × List Nat)) (v : Int) : List Nat :=
  ((m.find? (fun e => e.1 == v)).map (fun e => e.2)).getD []

/-- Strategy S2, `last_remaining_cell`: from the pencil-marking map, strip
values already solved in the group, and commit a value listed by exactly one
unsolved cell.  As in the source, a cell reached through the solved-value
branch is reported changed even when nothing was removed. -/
def lastRemainingCell (p : Puzzle) (g : List Nat) : Puzzle × List Nat :=
  let sv := groupSolvedValues p g
  let us := groupUnsolvedLocs sv.2 g
  let pm := us.1.foldl
    (fun (m : List (Int × List Nat)) l =>
      (getCell us.2 l).pv.foldl (fun m2 v => assocAdd m2 v l) m)
    []
  pm.foldl
    (fun (acc : Puzzle × List Nat) e =>
      if e.1 ∈ sv.1 then
        e.2.foldl
          (fun (acc2 : Puzzle × List Nat) l =>
            ((removeValueAt acc2.1 l e.1).1, insertUniq acc2.2 l))
          acc
      else if e.2.length == 1 then
        match e.2 with
        | [l] => (modifyCell acc.1 l (fun c => setValue c e.1), insertUniq acc.2 l)
        | _ => acc
      else acc)
    (us.2, [])

/-- All size-`n` combinations of a list, in `itertools.combinations` order. -/
def combinations {α : Type} : Nat → List α → List (List α)
  | 0, _ => [[]]
  | _ + 1, [] => []
  | n + 1, x :: xs =>
    (combinations n xs).map (fun c => x :: c) ++ combinations (n + 1) xs

/-- `check_conjugate`: naked conjugates of size `number` in the group. -/
def checkConjugate (number : Nat) (p : Puzzle) (g : List Nat) :
    Puzzle × List Nat :=
  let us := groupUnsolvedLocs p g
  let applicable := us.1.filter (fun l => (getCell us.2 l).pv.length ≤ number)
  (combinations number applicable).foldl
    (fun (acc : Puzzle × List Nat) combo =>
      let pms := combo.foldl (fun s l => unionUniq s (getCell acc.1 l).pv) []
      if pms.length == number then
        let us2 := groupUnsolvedLocs acc.1 g
        us2.1.foldl
          (fun (acc2 : Puzzle × List Nat) l =>
            if l ∈ combo then acc2
            else
              let r := removeValuesAt acc2.1 l pms
              (r.1, if r.2 then insertUniq acc2.2 l else acc2.2))
          (us2.2, acc.2)
      else acc)
    (us.2, [])

/-- Strategy S3, `check_conjugates`: run `check_conjugate` for every size
from 2 to `len(group) // 2`, accumulating the changed cells.  The source
has no early exit between sizes. -/
def checkConjugates (p : Puzzle) (g : List Nat) : Puzzle × List Nat :=
  (List.range' 2 (g.length / 2 - 1)).foldl
    (fun (acc : Puzzle × List Nat) k =>
      let r := checkConjugate k acc.1 g
      (r.1, r.2.foldl insertUniq acc.2))
    (p, [])

/-- `Group.potential_value_map`: value to the set of unsolved cells listing
it, built in one pass over the group. -/
def potentialValueMap (p : Puzzle) (g : List Nat) :
    List (Int × List Nat) × Puzzle :=
  g.foldl
    (fun (acc : List (Int × List Nat) × Puzzle) l =>
      let r := valueAt acc.2 l
      if truthyOptInt r.1 then (acc.1, r.2)
      else ((getCell r.2 l).pv.foldl (fun m v => assocAdd m v l) acc.1, r.2))
    ([], p)

/-- `check_hidden_conjugate`: hidden conjugates of size `number`. -/
def checkHiddenConjugate (number : Nat) (p : Puzzle) (g : List Nat) :
    Puzzle × List Nat :=
  let vm := potentialValueMap p g
  let applicable := (vm.1.filter (fun e => e.2.length ≤ number)).map (fun e => e.1)
  (combinations number applicable).foldl
    (fun (acc : Puzzle × List Nat) combo =>
      let ccv := combo.foldl (fun s v => unionUniq s (assocGet vm.1 v)) []
      if ccv.length == number then
        ccv.foldl
          (fun (acc2 : Puzzle × List Nat) l =>
            let vtr := (getCell acc2.1 l).pv.filter (fun v => decide (v ∉ combo))
            let r := removeValuesAt acc2.1 l vtr
            (r.1, if r.2 then insertUniq acc2.2 l else acc2.2))
          acc
      else acc)
    (vm.2, [])

/-- Strategy S4, `check_hidden_conjugates`: run `check_hidden_conjugate`
for every size from 2 to `len(group) // 2`; no early exit in the source. -/
def checkHiddenConjugates (p : Puzzle) (g : List Nat) : Puzzle × List Nat :=
  (List.range' 2 (g.length / 2 - 1)).foldl
    (fun (acc : Puzzle × List Nat) k =>
      let r := checkHiddenConjugate k acc.1 g
      (r.1, r.2.foldl insertUniq acc.2))
    (p, [])

/-- Indices of the groups containing the cell at `l`
(`Puzzle.get_groups`). -/
def getGroupIdxs (p : Puzzle) (l : Nat) : List Nat :=
  (List.range p.groups.length).filter (fun i => l ∈ p.groups.getD i [])

/-- The groups sharing at least one cell with `g`, excluding any group
equal to `g` as a set (`Group` inherits `set.__eq__`). -/
def intersectingGroupIdxs (p : Puzzle) (g : List Nat) : List Nat :=
  (g.foldl (fun (s : List Nat) l => unionUniq s (getGroupIdxs p l)) []).filter
    (fun i => !listSetEq (p.groups.getD i []) g)

/-- Strategy S5, `check_intersections`: if every cell of `g` that can host a
value lies inside one intersecting group, remove the value from the other
unsolved cells of that group. -/
def checkIntersections (p : Puzzle) (g : List Nat) : Puzzle × List Nat :=
  let vm := potentialValueMap p g
  let igs := intersectingGroupIdxs vm.2 g
  vm.1.foldl
    (fun (acc : Puzzle × List Nat) e =>
      igs.foldl
        (fun (acc2 : Puzzle × List Nat) gi =>
          let h := acc2.1.groups.getD gi []
          if e.2.all (fun l => decide (l ∈ h)) then
            let us := groupUnsolvedLocs acc2.1 h
            us.1.foldl
              (fun (acc3 : Puzzle × List Nat) l =>
                if l ∈ e.2 then acc3
                else
                  let r := removeValueAt acc3.1 l e.1
                  (r.1, if r.2 then insertUniq acc3.2 l else acc3.2))
              (us.2, acc2.2)
          else acc2)
        acc)
    (vm.2, [])

/-- `process_cell_group`: skip groups with no unsolved cell, otherwise try
the strategies in order S1 S2 S3 S4 S5, stopping at the first non-empty
changed-cell set (the Python `or`-chain on sets). -/
def processCellGroup (p : Puzzle) (g : List Nat) : Puzzle × List Nat :=
  let us := groupUnsolvedLocs p g
  if us.1.isEmpty then (us.2, [])
  else
    let r1 := clearSolvedCells us.2 g
    if r1.2.isEmpty then
      let r2 := lastRemainingCell r1.1 g
      if r2.2.isEmpty then
        let r3 := checkConjugates r2.1 g
        if r3.2.isEmpty then
          let r4 := checkHiddenConjugates r3.1 g
          if r4.2.isEmpty then checkIntersections r4.1 g
          else r4
        else r3
      else r2
    else r1

/-- Pop the entry with minimal priority from the scheduler
(`heapdict.popitem`); ties resolve to the earliest queued entry. -/
def popMin (q : List (Nat × Int)) : Option ((Nat × Int) × List (Nat × Int)) :=
  match q with
  | [] => none
  | e :: _ =>
    let best := q.foldl (fun b x => if x.2 < b.2 then x else b) e
    some (best, q.eraseP (fun x => x.1 == best.1))

/-- Count how many changed cells touch each group
(`groups_changed`, a `defaultdict(int)` in first-touch order). -/
def assocInc (m : List (Nat × Int)) (k : Nat) : List (Nat × Int) :=
  if m.any (fun e => e.1 == k) then
    m.map (fun e => if e.1 == k then (e.1, e.2 + 1) else e)
  else m ++ [(k, 1)]

/-- The `groups_changed` accumulation of the driver loop. -/
def groupsChanged (p : Puzzle) (changed : List Nat) : List (Nat × Int) :=
  changed.foldl
    (fun m l => (getGroupIdxs p l).foldl assocInc m)
    []

/-- Requeue-and-decrement of one group's priority
(`if cg not in queue: queue[cg] = 0` then `queue[cg] -= times`). -/
def queueAdjust (q : List (Nat × Int)) (gi : Nat) (times : Int) :
    List (Nat × Int) :=
  if q.any (fun e => e.1 == gi) then
    q.map (fun e => if e.1 == gi then (e.1, e.2 - times) else e)
  else q ++ [(gi, -times)]

/-- The propagation loop of `_solve`: while the state is `Unsolved` and the
scheduler is non-empty, pop a group, process it, requeue the groups touched
by the changed cells and recompute the state. -/
def solveLoop : Nat → Puzzle → List (Nat × Int) → PState →
    Except PyErr (Puzzle × PState)
  | 0, _, _, _ => Except.error PyErr.fuelExhausted
  | f + 1, p, q, st =>
    if st = PState.Unsolved ∧ q ≠ [] then
      match popMin q with
      | none => Except.error PyErr.fuelExhausted
      | some (e, q1) =>
        let g := p.groups.getD e.1 []
        let r := processCellGroup p g
        let gc := groupsChanged r.1 r.2
        let q2 := gc.foldl (fun qq x => queueAdjust qq x.1 x.2) q1
        let s2 := puzzleState r.1
        solveLoop f s2.2 q2 s2.1
    else Except.ok (p, st)

/-- Total pencil-marking count, used to bound the loop fuel. -/
def sumPv (p : Puzzle) : Nat := p.cells.foldl (fun n c => n + c.pv.length) 0

/-- Fuel that dominates the iteration count of `_solve`'s loop. -/
def innerFuelFor (p : Puzzle) : Nat :=
  (sumPv p + 1) * (p.groups.length + 1) + p.groups.length + 2

/-- `_solve`: seed the scheduler with every group at priority 0, compute the
state, and run the propagation loop.  Mutates its argument (threaded). -/
def solveInner (fuel : Nat) (p : Puzzle) : Except PyErr (Puzzle × PState) :=
  let q := (List.range p.groups.length).map (fun i => (i, (0 : Int)))
  let s := puzzleState p
  solveLoop fuel s.2 q s.1

/-- All object identities in a puzzle. -/
def oidsOf (p : Puzzle) : List Nat := p.cells.map (fun c => c.oid)

/-- The largest object identity in a puzzle (0 when empty). -/
def maxOid (p : Puzzle) : Nat := (oidsOf p).foldl max 0

/-- `copy.deepcopy` on a puzzle: same cell contents and groups, but every
cell is a fresh object (a fresh `oid`). -/
def deepcopy (p : Puzzle) : Puzzle :=
  { p with cells := p.cells.map (fun c => { c with oid := c.oid + maxOid p + 1 }) }

/-- `Puzzle.unsolved_cells()` over the whole puzzle, in cell iteration
order, threading lazy commits. -/
def puzzleUnsolvedLocs (p : Puzzle) : List Nat × Puzzle :=
  (p.cells.map (fun c => c.loc)).foldl
    (fun (acc : List Nat × Puzzle) l =>
      let r := valueAt acc.2 l
      (if truthyOptInt r.1 then acc.1 else acc.1 ++ [l], r.2))
    ([], p)

/-- The guess of `solve`: `next(iter(unsolved_cells()))` then
`next(iter(cell.potential_values()))` — the first unsolved cell in puzzle
iteration order and its first listed candidate.  `none` models the
`StopIteration` cases. -/
def chooseGuess (p : Puzzle) : Puzzle × Option (Nat × Int) :=
  let us := puzzleUnsolvedLocs p
  match us.1.head? with
  | none => (us.2, none)
  | some l =>
    match (getCell us.2 l).pv.head? with
    | none => (us.2, none)
    | some v => (us.2, some (l, v))

/-- The rollback loop of `solve`: scan the restored puzzle's unsolved cells
for one `==`-equal to the (mutated) guessed cell object, removing the guess
from each match; the boolean is `rollback_successful`. -/
def rollbackScan (saved : Puzzle) (target : Cell) (guess : Int) :
    Puzzle × Bool :=
  let us := puzzleUnsolvedLocs saved
  us.1.foldl
    (fun (acc : Puzzle × Bool) l =>
      if cellEq (getCell acc.1 l) target then
        ((removeValueAt acc.1 l guess).1, true)
      else acc)
    (us.2, false)

/-- `cnpp_solver.solve` on explicit recursion fuel: deep-copy the input,
propagate, and if still unsolved guess, recurse on the guessed branch, and
on conflict roll back (or die on the `assert`), then recurse. -/
def solveFuel : Nat → Puzzle → Except PyErr (Puzzle × PState)
  | 0, _ => Except.error PyErr.fuelExhausted
  | f + 1, puzzle =>
    let p0 := deepcopy puzzle
    match solveInner (innerFuelFor p0) p0 with
    | Except.error e => Except.error e
    | Except.ok (p1, st1) =>
      if st1 = PState.Unsolved then
        let saved := deepcopy p1
        let cg := chooseGuess p1
        match cg.2 with
        | none => Except.error PyErr.stopIteration
        | some (l, guess) =>
          let p3 := modifyCell cg.1 l (fun c => setValue c guess)
          match solveInner (innerFuelFor p3) p3 with
          | Except.error e => Except.error e
          | Except.ok (p4, st4) =>
            if st4 = PState.Conflict then
              let target := getCell p4 l
              let rb := rollbackScan saved target guess
              if rb.2 then solveFuel f rb.1
              else Except.error PyErr.assertionError
            else solveFuel f p4
      else Except.ok (p1, st1)

/-- Default recursion fuel, ample for every concrete run in this file. -/
def defaultFuel (p : Puzzle) : Nat := sumPv p + p.cells.length + 8

/-- `cnpp_solver.solve`. -/
def solve (p : Puzzle) : Except PyErr (Puzzle × PState) :=
  solveFuel (defaultFuel p) p

/-- The caller's view of `solve`: the argument puzzle after the call
(the source touches it only through `copy.deepcopy`) together with the
returned pair. -/
def solveCaller (p : Puzzle) : Puzzle × Except PyErr (Puzzle × PState) :=
  (p, solve p)

/-- Modelled from the spec: a valid completion of a puzzle over the given
alphabet assigns one symbol to every cell, preserves every originally
committed (truthy-valued) cell, and gives every group each alphabet symbol
exactly once.  The source has no such checker; only `Puzzle.state` partially
approximates it. -/
def isValidCompletion (alpha : List Int) (p : Puzzle)
    (asg : List (Nat × Int)) : Bool :=
  p.cells.all (fun c => ((asg.find? (fun e => e.1 == c.loc)).map Prod.snd).isSome)
  && p.cells.all (fun c =>
      match c.val with
      | some v =>
        if truthyInt v then
          (asg.find? (fun e => e.1 == c.loc)).map Prod.snd == some v
        else true
      | none => true)
  && p.groups.all (fun g => alpha.all (fun a =>
      (g.filter (fun l =>
        (asg.find? (fun e => e.1 == l)).map Prod.snd == some a)).length == 1))

/-- Every assignment of alphabet symbols to the cells that preserves the
committed cells, as association lists. -/
def allAssignments (alpha : List Int) : List Cell → List (List (Nat × Int))
  | [] => [[]]
  | c :: cs =>
    let rest := allAssignments alpha cs
    match c.val with
    | some v =>
      if truthyInt v then rest.map (fun a => (c.loc, v) :: a)
      else alpha.foldr (fun s acc => rest.map (fun a => (c.loc, s) :: a) ++ acc) []
    | none =>
      alpha.foldr (fun s acc => rest.map (fun a => (c.loc, s) :: a) ++ acc) []

/-- Modelled from the spec: whether a puzzle has at least one valid
completion over the given alphabet. -/
def hasCompletion (alpha : List Int) (p : Puzzle) : Bool :=
  (allAssignments alpha p.cells).any (isValidCompletion alpha p)

/-- Modelled from the spec (S3 as the spec describes it): like
`checkConjugates`, but returning as soon as some size `k` changes a cell,
before any larger size is examined. -/
def checkConjugatesEarlySpec (p : Puzzle) (g : List Nat) :
    Puzzle × List Nat :=
  (List.range' 2 (g.length / 2 - 1)).foldl
    (fun (acc : Puzzle × List Nat) k =>
      if acc.2.isEmpty then checkConjugate k acc.1 g else acc)
    (p, [])

/-- Modelled from the spec (S4 as the spec describes it): like
`checkHiddenConjugates`, but with the early return the spec mandates. -/
def checkHiddenConjugatesEarlySpec (p : Puzzle) (g : List Nat) :
    Puzzle × List Nat :=
  (List.range' 2 (g.length / 2 - 1)).foldl
    (fun (acc : Puzzle × List Nat) k =>
      if acc.2.isEmpty then checkHiddenConjugate k acc.1 g else acc)
    (p, [])

/-- Modelled from the spec: run a list of strategies in order, stopping at
the first one that returns a non-empty changed-cell set. -/
def firstNonEmptyStrategy :
    List (Puzzle → Puzzle × List Nat) → Puzzle → Puzzle × List Nat
  | [], p => (p, [])
  | s :: ss, p =>
    let r := s p
    if r.2.isEmpty then firstNonEmptyStrategy ss r.1 else r

/-- A solvable concrete puzzle over alphabet 1..3 on which propagation
stalls and the first guess (cell `a` at location 1, value 1) leads to a
conflict: cells `a` {1,2}, `b` {1,2}, `x` solved 3, `c` {1,3}, `y` {2,3},
`z` {1,2,3}; groups {a,b,x}, {b,c,y}, {a,c,z}. -/
def puzzleC1 : Puzzle :=
  { cells :=
      [⟨1, 1, none, [1, 2]⟩, ⟨2, 2, none, [1, 2]⟩, ⟨3, 3, some 3, []⟩,
       ⟨4, 4, none, [1, 3]⟩, ⟨5, 5, none, [2, 3]⟩, ⟨6, 6, none, [1, 2, 3]⟩],
    groups := [[1, 2, 3], [2, 4, 5], [1, 4, 6]] }

/-- The three-cell odd cycle over alphabet 1..2: groups {p,q}, {q,r},
{r,p}, all candidates {1,2}.  Unsolvable, and propagation stalls on it. -/
def puzzleC2 : Puzzle :=
  { cells := [⟨1, 1, none, [1, 2]⟩, ⟨2, 2, none, [1, 2]⟩, ⟨3, 3, none, [1, 2]⟩],
    groups := [[1, 2], [2, 3], [3, 1]] }

/-- The five-cell odd cycle over alphabet 1..2: five two-cell groups in a
cycle, all candidates {1,2}.  Unsolvable, and propagation stalls on it. -/
def puzzleC3 : Puzzle :=
  { cells :=
      [⟨1, 1, none, [1, 2]⟩, ⟨2, 2, none, [1, 2]⟩, ⟨3, 3, none, [1, 2]⟩,
       ⟨4, 4, none, [1, 2]⟩, ⟨5, 5, none, [1, 2]⟩],
    groups := [[1, 2], [2, 3], [3, 4], [4, 5], [5, 1]] }

/-- `puzzleC1` with the cell arena reordered so that the first unsolved
cell in iteration order is `z` (3 candidates) although `a` has only 2. -/
def puzzleC5 : Puzzle :=
  { cells :=
      [⟨6, 6, none, [1, 2, 3]⟩, ⟨1, 1, none, [1, 2]⟩, ⟨2, 2, none, [1, 2]⟩,
       ⟨3, 3, some 3, []⟩, ⟨4, 4, none, [1, 3]⟩, ⟨5, 5, none, [2, 3]⟩],
    groups := [[1, 2, 3], [2, 4, 5], [1, 4, 6]] }

/-- The puzzle holding the stalled `_solve` result for `puzzleC5` (what the
driver guesses on). -/
def stalledC5 : Puzzle :=
  ((solveInner (innerFuelFor (deepcopy puzzleC5)) (deepcopy puzzleC5)).toOption.getD
    (default, PState.Unsolved)).1

/-- A single group of six cells over alphabet 1..6 on which a naked pair at
size 2 fires and then a naked triple at size 3 fires on the same
invocation of `check_conjugates`. -/
def puzzleC7 : Puzzle :=
  { cells :=
      [⟨1, 1, none, [1, 2]⟩, ⟨2, 2, none, [1, 2]⟩, ⟨3, 3, none, [1, 3, 4]⟩,
       ⟨4, 4, none, [2, 4, 5]⟩, ⟨5, 5, none, [1, 3, 5]⟩,
       ⟨6, 6, none, [1, 2, 3, 4, 5, 6]⟩],
    groups := [[1, 2, 3, 4, 5, 6]] }

/-- The group of `puzzleC7`. -/
def groupC7 : List Nat := [1, 2, 3, 4, 5, 6]

/-- The stalled `_solve` result for `puzzleC2` (the puzzle the driver
guesses on). -/
def stalledC2 : Puzzle :=
  ((solveInner (innerFuelFor (deepcopy puzzleC2)) (deepcopy puzzleC2)).toOption.getD
    (default, PState.Unsolved)).1

/-- The guessed branch the driver builds for `puzzleC2`: the first unsolved
cell (location 1) committed to its first candidate (1). -/
def branchC2 : Puzzle :=
  modifyCell (chooseGuess stalledC2).1 1 (fun c => setValue c 1)

/-- A one-cell solved puzzle, used to instantiate universally quantified
theorems at a concrete input. -/
def puzzleOneSolved : Puzzle :=
  { cells := [⟨0, 0, some 1, []⟩], groups := [[0]] }

/-- A one-cell unsolved puzzle with candidates {4,5}, used to instantiate
the guess-selection theorem at a concrete input. -/
def puzzleGuessW : Puzzle :=
  { cells := [⟨0, 0, none, [4, 5]⟩], groups := [[0]] }

/-!  Theorems.  Each claim's main theorem carries the claim id in its doc
comment; auxiliary lemmas come first. -/

/-- `listSetEq` is set equality: membership-equivalence of the lists. -/
theorem listSetEq_iff {a b : List Int} :
    listSetEq a b = true ↔ ∀ v : Int, v ∈ a ↔ v ∈ b := by
  simp only [listSetEq, Bool.and_eq_true, List.all_eq_true, decide_eq_true_eq]
  constructor
  · rintro ⟨h1, h2⟩ v
    exact ⟨fun hv => h1 v hv, fun hv => h2 v hv⟩
  · intro h
    exact ⟨fun v hv => (h v).1 hv, fun v hv => (h v).2 hv⟩

/-- A duplicate-free list whose members are exactly those of `[v]` is
`[v]`. -/
theorem nodup_eq_singleton {l : List Int} {v : Int} (hn : l.Nodup)
    (h : ∀ x : Int, x ∈ l ↔ x ∈ [v]) : l = [v] := by
  cases l with
  | nil => exact absurd ((h v).2 (List.mem_singleton.2 rfl)) (List.not_mem_nil v)
  | cons a t =>
    have ha : a = v := List.mem_singleton.1 ((h a).1 (List.mem_cons_self a t))
    cases t with
    | nil => rw [ha]
    | cons b t2 =>
      have hb : b = v := List.mem_singleton.1 ((h b).1 (by simp))
      have : a ∉ b :: t2 := (List.nodup_cons.1 hn).1
      exact absurd (by simp [ha, hb]) this

/-- Cells with the same committed value and the same duplicate-free
candidate set report the same `value()`. -/
theorem cellValue_fst_congr {c d : Cell} (hval : c.val = d.val)
    (hset : ∀ v : Int, v ∈ c.pv ↔ v ∈ d.pv) (hc : c.pv.Nodup)
    (hd : d.pv.Nodup) : (cellValue c).1 = (cellValue d).1 := by
  by_cases ht : truthyOptInt c.val = true
  · have htd : truthyOptInt d.val = true := hval ▸ ht
    simp [cellValue, ht, htd, hval]
  · have htd : ¬ truthyOptInt d.val = true := hval ▸ ht
    cases hcp : c.pv with
    | nil =>
      have hdp : d.pv = [] := by
        apply List.eq_nil_iff_forall_not_mem.2
        intro x hx
        exact (List.not_mem_nil x) (hcp ▸ (hset x).2 hx)
      simp [cellValue, ht, htd, hcp, hdp]
    | cons a t =>
      cases t with
      | nil =>
        have hdp : d.pv = [a] := by
          apply nodup_eq_singleton hd
          intro x
          rw [← hcp]
          exact Iff.symm (hset x)
        simp [cellValue, ht, htd, hcp, hdp]
      | cons b t2 =>
        have hdshape : ∀ w : Int, d.pv ≠ [w] := by
          intro w hw
          have hcw : c.pv = [w] := by
            apply nodup_eq_singleton hc
            intro x
            rw [← hw]
            exact hset x
          rw [hcp] at hcw
          simp at hcw
        cases hdp : d.pv with
        | nil =>
          have : a ∈ d.pv := (hset a).1 (by rw [hcp]; simp)
          rw [hdp] at this
          exact absurd this (List.not_mem_nil a)
        | cons a2 t3 =>
          cases t3 with
          | nil => exact absurd hdp (hdshape a2)
          | cons b2 t4 => simp [cellValue, ht, htd, hcp, hdp]

/-- Claim C10: `Cell.__eq__` holds exactly when location, committed value
and candidate set all agree; `Cell.__hash__` depends only on the location;
hence a cell reported solved by `value()` is never equal to one reported
unsolved, although equal locations always give equal hashes. -/
theorem claim10_cell_eq_hash_solved (c d : Cell) :
    (cellEq c d = true ↔
      (c.loc = d.loc ∧ c.val = d.val ∧ ∀ v : Int, v ∈ c.pv ↔ v ∈ d.pv))
    ∧ (∀ hsh : Nat → Nat, c.loc = d.loc → cellHash hsh c = cellHash hsh d)
    ∧ (c.pv.Nodup → d.pv.Nodup →
        truthyOptInt (cellValue c).1 = true →
        truthyOptInt (cellValue d).1 = false → cellEq c d = false) := by
  have hiff : cellEq c d = true ↔
      (c.loc = d.loc ∧ c.val = d.val ∧ ∀ v : Int, v ∈ c.pv ↔ v ∈ d.pv) := by
    simp only [cellEq, Bool.and_eq_true, beq_iff_eq, listSetEq_iff]
    tauto
  refine ⟨hiff, fun hsh h => by simp [cellHash, h], ?_⟩
  intro hc hd hsolved hunsolved
  by_contra hne
  have heq : cellEq c d = true := by
    cases h : cellEq c d with
    | false => exact absurd h hne
    | true => rfl
  obtain ⟨-, hval, hset⟩ := hiff.1 heq
  rw [cellValue_fst_congr hval hset hc hd] at hsolved
  rw [hsolved] at hunsolved
  exact absurd hunsolved (by simp)

/-- Witness for C10 at a solved and an unsolved cell sharing location 0:
their hashes agree while `__eq__` distinguishes them. -/
theorem claim10_witness :
    cellHash (fun n => n) ⟨0, 0, some 1, []⟩ = cellHash (fun n => n) ⟨1, 0, none, [1, 2]⟩
    ∧ cellEq ⟨0, 0, some 1, []⟩ ⟨1, 0, none, [1, 2]⟩ = false :=
  ⟨(claim10_cell_eq_hash_solved ⟨0, 0, some 1, []⟩ ⟨1, 0, none, [1, 2]⟩).2.1
      (fun n => n) rfl,
   (claim10_cell_eq_hash_solved ⟨0, 0, some 1, []⟩ ⟨1, 0, none, [1, 2]⟩).2.2
      (by decide) (by decide) (by decide) (by decide)⟩

/-- Counterexample to claim C8: `set_value` never raises; calling it with a
different value on the committed cell (location 0, value 1) silently
replaces the committed value by 2 instead of failing fast. -/
theorem claim8_counterexample :
    (setValue ⟨0, 0, some 1, []⟩ 2).val = some 2
    ∧ (setValue ⟨0, 0, some 1, []⟩ 2).val ≠ some 1 := by
  decide

/-- Claim C8 amended: on a committed cell, `set_value` with the same value
is the identity, and with any value it unconditionally commits that value
and clears the pencil markings — no error is ever raised. -/
theorem claim8_set_value_overwrites (c : Cell) (v w : Int)
    (hv : c.val = some v) (hpv : c.pv = []) :
    setValue c v = c
    ∧ (setValue c w).val = some w ∧ (setValue c w).pv = [] := by
  refine ⟨?_, rfl, rfl⟩
  cases c
  simp only at hv hpv
  simp [setValue, hv, hpv]

/-- Witness for C8 at the committed cell (oid 0, location 0, value 7). -/
theorem claim8_witness :
    setValue ⟨0, 0, some 7, []⟩ 7 = ⟨0, 0, some 7, []⟩
    ∧ (setValue ⟨0, 0, some 7, []⟩ 9).val = some 9
    ∧ (setValue ⟨0, 0, some 7, []⟩ 9).pv = [] :=
  claim8_set_value_overwrites ⟨0, 0, some 7, []⟩ 7 9 rfl rfl

/-- Counterexample to claim C9: constructing a cell committed to the symbol
0 (whose truth value coincides with the empty sentinel) fails the
constructor's truthiness assertion instead of working. -/
theorem claim9_counterexample :
    mkCell 0 0 (some 0) none = Except.error PyErr.assertionError := by
  decide

/-- Claim C9 amended: `Cell.__init__` and `Cell.value` decide emptiness by
Python truthiness, not by an explicit optional: committing a falsy symbol
is rejected by the constructor's assertion, a truthy symbol is accepted,
and a cell holding the stored value 0 is reported as having no value. -/
theorem claim9_truthiness_fragile :
    (∀ oid l : Nat, mkCell oid l (some 0) none = Except.error PyErr.assertionError)
    ∧ (∀ (oid l : Nat) (v : Int), truthyInt v = true →
        mkCell oid l (some v) none = Except.ok ⟨oid, l, some v, []⟩)
    ∧ (∀ oid l : Nat, (cellValue ⟨oid, l, some 0, []⟩).1 = none) := by
  refine ⟨fun oid l => rfl, fun oid l v hv => ?_, fun oid l => rfl⟩
  simp [mkCell, truthyOptInt, hv, dedupList]

/-- Witness for C9's amended claim at oid 0, location 0, symbol 5. -/
theorem claim9_witness :
    mkCell 0 0 (some 5) none = Except.ok ⟨0, 0, some 5, []⟩ :=
  claim9_truthiness_fragile.2.1 0 0 5 rfl

/-- Claim C1 (code bug): `puzzleC1` has a valid completion over its
alphabet 1..3 (so `solve` should return a Solved valid completion), yet
`solve` raises the rollback `AssertionError`: after the stalled propagation
it guesses 1 at location 1, the guessed branch reaches `Conflict`, and the
rollback scan compares the mutated guessed cell with `Cell.__eq__`, which
can never match an unsolved cell, so `assert rollback_successful` fires. -/
theorem claim1_solvable_puzzle_crashes :
    hasCompletion [1, 2, 3] puzzleC1 = true
    ∧ solve puzzleC1 = Except.error PyErr.assertionError := by
  constructor
  · decide
  · decide

/-- Claim C2 (code bug): on `puzzleC2` the guessed branch (commit 1 at
location 1) ends in state `Conflict`, and instead of rolling back and
recursing, `solve` lets the rollback `AssertionError` escape to the
caller. -/
theorem claim2_conflict_branch_raises :
    (solveInner (innerFuelFor branchC2) branchC2).map (fun r => r.2)
      = Except.ok PState.Conflict
    ∧ solve puzzleC2 = Except.error PyErr.assertionError := by
  constructor
  · decide
  · decide

/-- Claim C3 (code bug): `puzzleC3` (the five-cell odd cycle) has no valid
completion over alphabet 1..2, so `solve` should return `Conflict`; instead
the first guess's branch conflicts and the rollback assertion raises. -/
theorem claim3_unsolvable_puzzle_crashes :
    hasCompletion [1, 2] puzzleC3 = false
    ∧ solve puzzleC3 = Except.error PyErr.assertionError := by
  constructor
  · decide
  · decide

/-- Counterexample to claim C5: on `puzzleC5` propagation stalls with the
puzzle still unsolved, and the driver's guess targets location 6, whose
candidate set has size 3, although the unsolved cell at location 1 has only
2 candidates — the choice is not of minimal candidate count. -/
theorem claim5_counterexample :
    (solveInner (innerFuelFor (deepcopy puzzleC5)) (deepcopy puzzleC5)).map
        (fun r => r.2) = Except.ok PState.Unsolved
    ∧ (chooseGuess stalledC5).2 = some (6, 1)
    ∧ (getCell stalledC5 6).pv.length = 3
    ∧ 1 ∈ (puzzleUnsolvedLocs stalledC5).1
    ∧ (getCell stalledC5 1).pv.length = 2 := by
  refine ⟨by decide, by decide, by decide, by decide, by decide⟩

/-- Claim C5 amended: the guessed cell is simply the first unsolved cell in
the puzzle's cell-iteration order and the guess its first listed candidate;
no minimum-candidate-count selection is performed. -/
theorem claim5_guess_is_first_unsolved (p q : Puzzle) (l : Nat) (g : Int)
    (h : chooseGuess p = (q, some (l, g))) :
    (puzzleUnsolvedLocs p).1.head? = some l
    ∧ (getCell (puzzleUnsolvedLocs p).2 l).pv.head? = some g := by
  simp only [chooseGuess] at h
  cases hh : (puzzleUnsolvedLocs p).1.head? with
  | none => rw [hh] at h; simp at h
  | some l0 =>
    rw [hh] at h
    dsimp only at h
    cases hp : (getCell (puzzleUnsolvedLocs p).2 l0).pv.head? with
    | none => rw [hp] at h; simp at h
    | some v0 =>
      rw [hp] at h
      dsimp only at h
      simp only [Prod.mk.injEq, Option.some.injEq] at h
      obtain ⟨-, hl, hg⟩ := h
      subst hl
      subst hg
      exact ⟨rfl, hp⟩

/-- Witness for C5's amended claim on `puzzleGuessW`. -/
theorem claim5_witness :
    (puzzleUnsolvedLocs puzzleGuessW).1.head? = some 0
    ∧ (getCell (puzzleUnsolvedLocs puzzleGuessW).2 0).pv.head? = some 4 :=
  claim5_guess_is_first_unsolved puzzleGuessW puzzleGuessW 0 4 (by decide)

/-- Counterexample to claim C7: on `puzzleC7` the naked pair at size 2
changes cells, yet `check_conjugates` goes on to size 3 in the same
invocation (reducing the cell at location 6 to candidate set 6 alone);
the early-returning version mandated by the claim leaves that cell with
candidates 3,4,5,6, so the two disagree. -/
theorem claim7_counterexample :
    (getCell (checkConjugates puzzleC7 groupC7).1 6).pv = [6]
    ∧ (getCell (checkConjugatesEarlySpec puzzleC7 groupC7).1 6).pv = [3, 4, 5, 6]
    ∧ checkConjugates puzzleC7 groupC7 ≠ checkConjugatesEarlySpec puzzleC7 groupC7 := by
  refine ⟨by decide, by decide, by decide⟩

/-- Claim C7 amended: for a group of 6 or 7 cells, `check_conjugates` and
`check_hidden_conjugates` run size 2 and then unconditionally size 3 on the
mutated puzzle, accumulating both changed-cell sets; there is no early
return between sizes. -/
theorem claim7_all_sizes_run (p : Puzzle) (g : List Nat)
    (h6 : 6 ≤ g.length) (h7 : g.length ≤ 7) :
    checkConjugates p g =
      (let r2 := checkConjugate 2 p g
       let r3 := checkConjugate 3 r2.1 g
       (r3.1, r3.2.foldl insertUniq (r2.2.foldl insertUniq [])))
    ∧ checkHiddenConjugates p g =
      (let r2 := checkHiddenConjugate 2 p g
       let r3 := checkHiddenConjugate 3 r2.1 g
       (r3.1, r3.2.foldl insertUniq (r2.2.foldl insertUniq []))) := by
  have hk : g.length / 2 - 1 = 2 := by omega
  constructor
  · simp only [checkConjugates, hk]
    rfl
  · simp only [checkHiddenConjugates, hk]
    rfl

/-- Witness for C7's amended claim on `puzzleC7`. -/
theorem claim7_witness :
    checkConjugates puzzleC7 groupC7 =
      (let r2 := checkConjugate 2 puzzleC7 groupC7
       let r3 := checkConjugate 3 r2.1 groupC7
       (r3.1, r3.2.foldl insertUniq (r2.2.foldl insertUniq [])))
    ∧ checkHiddenConjugates puzzleC7 groupC7 =
      (let r2 := checkHiddenConjugate 2 puzzleC7 groupC7
       let r3 := checkHiddenConjugate 3 r2.1 groupC7
       (r3.1, r3.2.foldl insertUniq (r2.2.foldl insertUniq []))) :=
  claim7_all_sizes_run puzzleC7 groupC7 (by decide) (by decide)

/-- Claim C6: with at least one unsolved cell in the group,
`process_cell_group` tries S1, S2, S3, S4, S5 in that fixed order and
returns the first non-empty changed-cell set (empty if all five are
empty); with no unsolved cell it returns the empty set at once. -/
theorem claim6_strategy_order (p : Puzzle) (g : List Nat) :
    processCellGroup p g =
      (let us := groupUnsolvedLocs p g
       if us.1.isEmpty then (us.2, [])
       else
         firstNonEmptyStrategy
           [fun q => clearSolvedCells q g, fun q => lastRemainingCell q g,
            fun q => checkConjugates q g, fun q => checkHiddenConjugates q g,
            fun q => checkIntersections q g] us.2) := by
  simp only [processCellGroup, firstNonEmptyStrategy]
  by_cases h0 : (groupUnsolvedLocs p g).1.isEmpty
  · simp [h0]
  · simp only [h0, if_false, Bool.false_eq_true]
    by_cases h1 : (clearSolvedCells (groupUnsolvedLocs p g).2 g).2.isEmpty <;>
      simp only [h1, if_true, if_false, Bool.false_eq_true]
    by_cases h2 :
        (lastRemainingCell (clearSolvedCells (groupUnsolvedLocs p g).2 g).1 g).2.isEmpty <;>
      simp only [h2, if_true, if_false, Bool.false_eq_true]
    by_cases h3 :
        (checkConjugates
          (lastRemainingCell (clearSolvedCells (groupUnsolvedLocs p g).2 g).1 g).1
          g).2.isEmpty <;>
      simp only [h3, if_true, if_false, Bool.false_eq_true]
    by_cases h4 :
        (checkHiddenConjugates
          (checkConjugates
            (lastRemainingCell (clearSolvedCells (groupUnsolvedLocs p g).2 g).1 g).1
            g).1 g).2.isEmpty <;>
      simp only [h4, if_true, if_false, Bool.false_eq_true]
    by_cases h5 :
        (checkIntersections
          (checkHiddenConjugates
            (checkConjugates
              (lastRemainingCell (clearSolvedCells (groupUnsolvedLocs p g).2 g).1 g).1
              g).1 g).1 g).2.isEmpty
    · rw [if_pos h5]
      rw [List.isEmpty_iff] at h5
      rw [← h5]
    · rw [if_neg h5]

/-!  Object-identity bookkeeping for claim C4: every operation of the
solver mutates cells in place and none ever creates or destroys a cell
object, so the multiset of object identities of a puzzle is invariant
under all of them; only `deepcopy` replaces it by a fresh one. -/

/-- A fold whose step preserves a measure preserves it overall. -/
theorem foldl_pres {σ β γ : Type} (m : σ → γ) (step : σ → β → σ)
    (hs : ∀ (s : σ) (b : β), m (step s b) = m s) :
    ∀ (bs : List β) (s : σ), m (bs.foldl step s) = m s := by
  intro bs
  induction bs with
  | nil => intro s; rfl
  | cons b t ih => intro s; rw [List.foldl_cons, ih, hs]

theorem setValue_oid (c : Cell) (v : Int) : (setValue c v).oid = c.oid := rfl

theorem cellValue_oid (c : Cell) : (cellValue c).2.oid = c.oid := by
  unfold cellValue
  by_cases h : truthyOptInt c.val = true
  · simp [h]
  · simp only [h, if_false, Bool.false_eq_true]
    cases hp : c.pv with
    | nil => rfl
    | cons v t =>
      cases t with
      | nil => rfl
      | cons w t2 => rfl

theorem removeValuesCell_oid (c : Cell) (vs : List Int) :
    (removeValuesCell c vs).1.oid = c.oid := by
  unfold removeValuesCell
  refine foldl_pres (fun a : Cell × Bool => a.1.oid) _ ?_ vs (c, false)
  intro s b
  dsimp only
  split <;> rfl

theorem oidsOf_modifyCell (p : Puzzle) (l : Nat) (f : Cell → Cell)
    (hf : ∀ c, (f c).oid = c.oid) : oidsOf (modifyCell p l f) = oidsOf p := by
  unfold oidsOf modifyCell
  rw [List.map_map]
  apply List.map_congr_left
  intro a _
  dsimp only [Function.comp]
  split
  · exact hf a
  · rfl

theorem oidsOf_valueAt (p : Puzzle) (l : Nat) :
    oidsOf (valueAt p l).2 = oidsOf p :=
  oidsOf_modifyCell p l _ (fun c => cellValue_oid c)

theorem oidsOf_removeValuesAt (p : Puzzle) (l : Nat) (vs : List Int) :
    oidsOf (removeValuesAt p l vs).1 = oidsOf p :=
  oidsOf_modifyCell p l _ (fun c => removeValuesCell_oid c vs)

theorem oidsOf_removeValueAt (p : Puzzle) (l : Nat) (v : Int) :
    oidsOf (removeValueAt p l v).1 = oidsOf p :=
  oidsOf_removeValuesAt p l [v]

theorem oidsOf_groupUnsolvedLocs (p : Puzzle) (g : List Nat) :
    oidsOf (groupUnsolvedLocs p g).2 = oidsOf p := by
  unfold groupUnsolvedLocs
  refine foldl_pres (fun a : List Nat × Puzzle => oidsOf a.2) _ ?_ g ([], p)
  intro s b
  dsimp only
  exact oidsOf_valueAt s.2 b

theorem oidsOf_groupSolvedValues (p : Puzzle) (g : List Nat) :
    oidsOf (groupSolvedValues p g).2 = oidsOf p := by
  unfold groupSolvedValues
  refine foldl_pres (fun a : List Int × Puzzle => oidsOf a.2) _ ?_ g ([], p)
  intro s b
  dsimp only
  split
  · split
    · exact oidsOf_valueAt s.2 b
    · exact oidsOf_valueAt s.2 b
  · exact oidsOf_valueAt s.2 b

theorem oidsOf_stateCells :
    ∀ (ls : List Nat) (p : Puzzle), oidsOf (stateCells ls p).2 = oidsOf p := by
  intro ls
  induction ls with
  | nil => intro p; rfl
  | cons l t ih =>
    intro p
    unfold stateCells
    dsimp only
    split
    · rw [ih]; exact oidsOf_valueAt p l
    · exact oidsOf_valueAt p l

theorem oidsOf_groupDup :
    ∀ (ls : List Nat) (seen : List (Option Int)) (p : Puzzle),
      oidsOf (groupDup ls seen p).2 = oidsOf p := by
  intro ls
  induction ls with
  | nil => intro seen p; rfl
  | cons l t ih =>
    intro seen p
    unfold groupDup
    dsimp only
    split
    · exact oidsOf_valueAt p l
    · rw [ih]; exact oidsOf_valueAt p l

theorem oidsOf_stateGroups :
    ∀ (gs : List (List Nat)) (p : Puzzle),
      oidsOf (stateGroups gs p).2 = oidsOf p := by
  intro gs
  induction gs with
  | nil => intro p; rfl
  | cons g t ih =>
    intro p
    unfold stateGroups
    dsimp only
    split
    · exact oidsOf_groupUnsolvedLocs p g
    · split
      · rw [oidsOf_groupDup]; exact oidsOf_groupUnsolvedLocs p g
      · rw [ih, oidsOf_groupDup]; exact oidsOf_groupUnsolvedLocs p g

theorem oidsOf_puzzleState (p : Puzzle) :
    oidsOf (puzzleState p).2 = oidsOf p := by
  unfold puzzleState
  dsimp only
  split
  · exact oidsOf_stateCells _ p
  · rw [oidsOf_stateGroups]; exact oidsOf_stateCells _ p

theorem oidsOf_clearSolvedCells (p : Puzzle) (g : List Nat) :
    oidsOf (clearSolvedCells p g).1 = oidsOf p := by
  unfold clearSolvedCells
  dsimp only
  refine (foldl_pres (fun a : Puzzle × List Nat => oidsOf a.1) _ ?_ _ _).trans ?_
  · intro s b
    dsimp only
    exact oidsOf_removeValuesAt s.1 b _
  · dsimp only
    rw [oidsOf_groupUnsolvedLocs, oidsOf_groupSolvedValues]

theorem oidsOf_lastRemainingCell (p : Puzzle) (g : List Nat) :
    oidsOf (lastRemainingCell p g).1 = oidsOf p := by
  unfold lastRemainingCell
  dsimp only
  refine (foldl_pres (fun a : Puzzle × List Nat => oidsOf a.1) _ ?_ _ _).trans ?_
  · intro s b
    dsimp only
    split
    · refine foldl_pres (fun a : Puzzle × List Nat => oidsOf a.1) _ ?_ _ s
      intro s2 b2
      dsimp only
      exact oidsOf_removeValueAt s2.1 b2 _
    · split
      · split
        · exact oidsOf_modifyCell _ _ _ (fun c => rfl)
        · rfl
      · rfl
  · dsimp only
    rw [oidsOf_groupUnsolvedLocs, oidsOf_groupSolvedValues]

theorem oidsOf_checkConjugate (n : Nat) (p : Puzzle) (g : List Nat) :
    oidsOf (checkConjugate n p g).1 = oidsOf p := by
  unfold checkConjugate
  dsimp only
  refine (foldl_pres (fun a : Puzzle × List Nat => oidsOf a.1) _ ?_ _ _).trans ?_
  · intro s b
    dsimp only
    split
    · refine (foldl_pres (fun a : Puzzle × List Nat => oidsOf a.1) _ ?_ _ _).trans ?_
      · intro s2 b2
        dsimp only
        split
        · rfl
        · exact oidsOf_removeValuesAt s2.1 b2 _
      · dsimp only
        exact oidsOf_groupUnsolvedLocs s.1 g
    · rfl
  · dsimp only
    exact oidsOf_groupUnsolvedLocs p g

theorem oidsOf_checkConjugates (p : Puzzle) (g : List Nat) :
    oidsOf (checkConjugates p g).1 = oidsOf p := by
  unfold checkConjugates
  refine foldl_pres (fun a : Puzzle × List Nat => oidsOf a.1) _ ?_ _ (p, [])
  intro s b
  dsimp only
  exact oidsOf_checkConjugate b s.1 g

theorem oidsOf_potentialValueMap (p : Puzzle) (g : List Nat) :
    oidsOf (potentialValueMap p g).2 = oidsOf p := by
  unfold potentialValueMap
  refine foldl_pres (fun a : List (Int × List Nat) × Puzzle => oidsOf a.2) _ ?_ g ([], p)
  intro s b
  dsimp only
  split
  · exact oidsOf_valueAt s.2 b
  · exact oidsOf_valueAt s.2 b

theorem oidsOf_checkHiddenConjugate (n : Nat) (p : Puzzle) (g : List Nat) :
    oidsOf (checkHiddenConjugate n p g).1 = oidsOf p := by
  unfold checkHiddenConjugate
  dsimp only
  refine (foldl_pres (fun a : Puzzle × List Nat => oidsOf a.1) _ ?_ _ _).trans ?_
  · intro s b
    dsimp only
    split
    · refine foldl_pres (fun a : Puzzle × List Nat => oidsOf a.1) _ ?_ _ s
      intro s2 b2
      dsimp only
      exact oidsOf_removeValuesAt s2.1 b2 _
    · rfl
  · dsimp only
    exact oidsOf_potentialValueMap p g

theorem oidsOf_checkHiddenConjugates (p : Puzzle) (g : List Nat) :
    oidsOf (checkHiddenConjugates p g).1 = oidsOf p := by
  unfold checkHiddenConjugates
  refine foldl_pres (fun a : Puzzle × List Nat => oidsOf a.1) _ ?_ _ (p, [])
  intro s b
  dsimp only
  exact oidsOf_checkHiddenConjugate b s.1 g

theorem oidsOf_checkIntersections (p : Puzzle) (g : List Nat) :
    oidsOf (checkIntersections p g).1 = oidsOf p := by
  unfold checkIntersections
  dsimp only
  refine (foldl_pres (fun a : Puzzle × List Nat => oidsOf a.1) _ ?_ _ _).trans ?_
  · intro s b
    refine foldl_pres (fun a : Puzzle × List Nat => oidsOf a.1) _ ?_ _ s
    intro s2 b2
    dsimp only
    split
    · refine (foldl_pres (fun a : Puzzle × List Nat => oidsOf a.1) _ ?_ _ _).trans ?_
      · intro s3 b3
        dsimp only
        split
        · rfl
        · exact oidsOf_removeValueAt s3.1 b3 _
      · dsimp only
        exact oidsOf_groupUnsolvedLocs s2.1 _
    · rfl
  · dsimp only
    exact oidsOf_potentialValueMap p g

theorem oidsOf_processCellGroup (p : Puzzle) (g : List Nat) :
    oidsOf (processCellGroup p g).1 = oidsOf p := by
  unfold processCellGroup
  dsimp only
  split
  · exact oidsOf_groupUnsolvedLocs p g
  · split
    · split
      · split
        · split
          · rw [oidsOf_checkIntersections, oidsOf_checkHiddenConjugates,
              oidsOf_checkConjugates, oidsOf_lastRemainingCell,
              oidsOf_clearSolvedCells, oidsOf_groupUnsolvedLocs]
          · rw [oidsOf_checkHiddenConjugates, oidsOf_checkConjugates,
              oidsOf_lastRemainingCell, oidsOf_clearSolvedCells,
              oidsOf_groupUnsolvedLocs]
        · rw [oidsOf_checkConjugates, oidsOf_lastRemainingCell,
            oidsOf_clearSolvedCells, oidsOf_groupUnsolvedLocs]
      · rw [oidsOf_lastRemainingCell, oidsOf_clearSolvedCells,
          oidsOf_groupUnsolvedLocs]
    · rw [oidsOf_clearSolvedCells, oidsOf_groupUnsolvedLocs]

theorem oidsOf_solveLoop :
    ∀ (f : Nat) (p : Puzzle) (q : List (Nat × Int)) (st : PState)
      (p' : Puzzle) (st' : PState),
      solveLoop f p q st = Except.ok (p', st') → oidsOf p' = oidsOf p := by
  intro f
  induction f with
  | zero => intro p q st p' st' h; exact absurd h (by simp [solveLoop])
  | succ f ih =>
    intro p q st p' st' h
    unfold solveLoop at h
    split at h
    · cases hpm : popMin q with
      | none => rw [hpm] at h; simp at h
      | some pr =>
        rw [hpm] at h
        dsimp only at h
        rw [ih _ _ _ _ _ h, oidsOf_puzzleState, oidsOf_processCellGroup]
    · simp only [Except.ok.injEq, Prod.mk.injEq] at h
      rw [← h.1]

theorem oidsOf_solveInner (f : Nat) (p p' : Puzzle) (st' : PState)
    (h : solveInner f p = Except.ok (p', st')) : oidsOf p' = oidsOf p := by
  unfold solveInner at h
  rw [oidsOf_solveLoop _ _ _ _ _ _ h, oidsOf_puzzleState]

theorem oidsOf_puzzleUnsolvedLocs (p : Puzzle) :
    oidsOf (puzzleUnsolvedLocs p).2 = oidsOf p := by
  unfold puzzleUnsolvedLocs
  refine foldl_pres (fun a : List Nat × Puzzle => oidsOf a.2) _ ?_ _ ([], p)
  intro s b
  dsimp only
  exact oidsOf_valueAt s.2 b

theorem oidsOf_chooseGuess (p : Puzzle) :
    oidsOf (chooseGuess p).1 = oidsOf p := by
  unfold chooseGuess
  dsimp only
  cases (puzzleUnsolvedLocs p).1.head? with
  | none => exact oidsOf_puzzleUnsolvedLocs p
  | some l =>
    dsimp only
    cases (getCell (puzzleUnsolvedLocs p).2 l).pv.head? with
    | none => exact oidsOf_puzzleUnsolvedLocs p
    | some v => exact oidsOf_puzzleUnsolvedLocs p

theorem oidsOf_rollbackScan (saved : Puzzle) (target : Cell) (guess : Int) :
    oidsOf (rollbackScan saved target guess).1 = oidsOf saved := by
  unfold rollbackScan
  dsimp only
  refine (foldl_pres (fun a : Puzzle × Bool => oidsOf a.1) _ ?_ _ _).trans ?_
  · intro s b
    dsimp only
    split
    · exact oidsOf_removeValueAt s.1 b _
    · rfl
  · dsimp only
    exact oidsOf_puzzleUnsolvedLocs saved

theorem foldl_max_init_le (l : List Nat) : ∀ a : Nat, a ≤ l.foldl max a := by
  induction l with
  | nil => intro a; exact le_refl a
  | cons b t ih => intro a; exact le_trans (le_max_left a b) (ih (max a b))

theorem le_foldl_max_of_mem {x : Nat} :
    ∀ (l : List Nat) (a : Nat), x ∈ l → x ≤ l.foldl max a := by
  intro l
  induction l with
  | nil => intro a h; cases h
  | cons b t ih =>
    intro a h
    rcases List.mem_cons.1 h with rfl | hmem
    · exact le_trans (le_max_right a x) (foldl_max_init_le t (max a x))
    · exact ih (max a b) hmem

theorem mem_le_maxOid {p : Puzzle} {o : Nat} (h : o ∈ oidsOf p) :
    o ≤ maxOid p :=
  le_foldl_max_of_mem (oidsOf p) 0 h

theorem oidsOf_deepcopy (p : Puzzle) :
    oidsOf (deepcopy p) = (oidsOf p).map (fun o => o + maxOid p + 1) := by
  unfold oidsOf deepcopy
  rw [List.map_map, List.map_map]
  rfl

theorem mem_oids_deepcopy (p : Puzzle) :
    ∀ o ∈ oidsOf (deepcopy p), maxOid p < o := by
  intro o ho
  rw [oidsOf_deepcopy] at ho
  obtain ⟨x, -, rfl⟩ := List.mem_map.1 ho
  omega

theorem maxOid_congr {p q : Puzzle} (h : oidsOf p = oidsOf q) :
    maxOid p = maxOid q := by
  unfold maxOid
  rw [h]

theorem maxOid_le_deepcopy (p : Puzzle) : maxOid p ≤ maxOid (deepcopy p) := by
  cases hc : p.cells with
  | nil =>
    have h1 : oidsOf p = [] := by unfold oidsOf; rw [hc]; rfl
    have h2 : oidsOf (deepcopy p) = [] := by rw [oidsOf_deepcopy, h1]; rfl
    unfold maxOid
    rw [h1, h2]
  | cons c t =>
    have hmem : c.oid + maxOid p + 1 ∈ oidsOf (deepcopy p) := by
      rw [oidsOf_deepcopy]
      apply List.mem_map.2
      refine ⟨c.oid, ?_, rfl⟩
      unfold oidsOf
      rw [hc]
      exact List.mem_map.2 ⟨c, List.mem_cons_self c t, rfl⟩
    have := mem_le_maxOid hmem
    omega

/-- Every cell object of a puzzle returned by `solveFuel` is fresher than
every object of the argument: the result is always built from deep copies
of the input. -/
theorem solveFuel_fresh :
    ∀ (f : Nat) (p p' : Puzzle) (st : PState),
      solveFuel f p = Except.ok (p', st) → ∀ o ∈ oidsOf p', maxOid p < o := by
  intro f
  induction f with
  | zero =>
    intro p p' st h
    exact absurd h (by simp [solveFuel])
  | succ f ih =>
    intro p p' st h o ho
    unfold solveFuel at h
    dsimp only at h
    cases hsi : solveInner (innerFuelFor (deepcopy p)) (deepcopy p) with
    | error e => rw [hsi] at h; simp at h
    | ok pr =>
      obtain ⟨p1, st1⟩ := pr
      rw [hsi] at h
      dsimp only at h
      have hp1 : oidsOf p1 = oidsOf (deepcopy p) := oidsOf_solveInner _ _ _ _ hsi
      by_cases hst : st1 = PState.Unsolved
      · rw [if_pos hst] at h
        cases hcg : (chooseGuess p1).2 with
        | none => rw [hcg] at h; simp at h
        | some lg =>
          obtain ⟨l, guess⟩ := lg
          rw [hcg] at h
          dsimp only at h
          cases hsi2 : solveInner
              (innerFuelFor (modifyCell (chooseGuess p1).1 l (fun c => setValue c guess)))
              (modifyCell (chooseGuess p1).1 l (fun c => setValue c guess)) with
          | error e => rw [hsi2] at h; simp at h
          | ok pr4 =>
            obtain ⟨p4, st4⟩ := pr4
            rw [hsi2] at h
            dsimp only at h
            have hp4 : oidsOf p4 = oidsOf p1 := by
              rw [oidsOf_solveInner _ _ _ _ hsi2,
                oidsOf_modifyCell (chooseGuess p1).1 l (fun c => setValue c guess)
                  (fun c => rfl),
                oidsOf_chooseGuess]
            by_cases hc4 : st4 = PState.Conflict
            · rw [if_pos hc4] at h
              split at h
              · have hrb : oidsOf (rollbackScan (deepcopy p1) (getCell p4 l) guess).1
                    = oidsOf (deepcopy p1) := oidsOf_rollbackScan _ _ _
                have hlt := ih _ _ _ h o ho
                have h1 : maxOid p ≤ maxOid p1 := by
                  rw [maxOid_congr hp1]
                  exact maxOid_le_deepcopy p
                have h2 : maxOid p1 ≤
                    maxOid (rollbackScan (deepcopy p1) (getCell p4 l) guess).1 := by
                  rw [maxOid_congr hrb]
                  exact maxOid_le_deepcopy p1
                omega
              · simp at h
            · rw [if_neg hc4] at h
              have hlt := ih _ _ _ h o ho
              have h1 : maxOid p ≤ maxOid p4 := by
                rw [maxOid_congr (hp4.trans hp1)]
                exact maxOid_le_deepcopy p
              omega
      · rw [if_neg hst] at h
        simp only [Except.ok.injEq, Prod.mk.injEq] at h
        obtain ⟨hpp, -⟩ := h
        subst hpp
        exact mem_oids_deepcopy p o (hp1 ▸ ho)

/-- Claim C4: after `solve(P)` the caller's puzzle is unchanged (the source
reads the argument only through the initial `copy.deepcopy`, modelled by
`solveCaller` returning it untouched), and on success the returned puzzle
shares no cell object with the argument: every returned cell's object
identity differs from every input cell's. -/
theorem claim4_solve_does_not_mutate_input (p : Puzzle) :
    (solveCaller p).1 = p
    ∧ ∀ (q : Puzzle) (st : PState), solve p = Except.ok (q, st) →
        ∀ c ∈ q.cells, ∀ c' ∈ p.cells, c.oid ≠ c'.oid := by
  refine ⟨rfl, ?_⟩
  intro q st h c hc c' hc' heq
  have h1 : maxOid p < c.oid :=
    solveFuel_fresh (defaultFuel p) p q st h c.oid
      (List.mem_map.2 ⟨c, hc, rfl⟩)
  have h2 : c'.oid ≤ maxOid p :=
    mem_le_maxOid (List.mem_map.2 ⟨c', hc', rfl⟩)
  omega

/-- Witness for C4 on the one-cell solved puzzle: the call returns the
argument unchanged, and the returned cell object (oid 1) differs from the
input cell object (oid 0). -/
theorem claim4_witness :
    (solveCaller puzzleOneSolved).1 = puzzleOneSolved
    ∧ (⟨1, 0, some 1, []⟩ : Cell).oid ≠ (⟨0, 0, some 1, []⟩ : Cell).oid :=
  ⟨(claim4_solve_does_not_mutate_input puzzleOneSolved).1,
   (claim4_solve_does_not_mutate_input puzzleOneSolved).2
     ⟨[⟨1, 0, some 1, []⟩], [[0]]⟩ PState.Solved (by decide)
     ⟨1, 0, some 1, []⟩ (by decide) ⟨0, 0, some 1, []⟩ (by decide)⟩

end Cnpp
